import Mathlib

set_option maxHeartbeats 1000000

/-!
Verification of the chess-game-generator program (src/main.go) against its
specification. The program generates seed-reproducible random chess games,
persists them in a line-oriented storage file, selects for each configured
target length the generated game whose half-move count is closest, and writes
a report. The definitions below are a shallow embedding of the Go source:
machine integers become Nat/Int, the external rules engine becomes an
explicit Engine parameter, strings become character lists where the claims
depend on string contents, and fallible or panicking code returns explicit
outcome values.
-/

namespace ChessGen

/-- Status of a game as reported by the rules engine after a move. The source
loop (main.go line 169) only distinguishes game.InProgress from every other
value, so all terminal variants collapse into Ended. -/
inductive GStatus where
  | InProgress : GStatus
  | Ended : GStatus
deriving DecidableEq

/-- Shallow model of the game.Game values the program builds: only the fields
the program reads are kept. posLen models len(g.Positions), posCap models
cap(g.Positions), tagSeed models the number printed into Tags["#"], and
tagSanMoves models Tags["sanMoves"] as a character list. -/
structure Game where
  posLen : Nat
  posCap : Nat
  tagSeed : Nat
  tagSanMoves : List Char
deriving DecidableEq

/-- The fixed key set of the gamesOfLength map (main.go lines 19-27). -/
def targetLengths : List Int := [10, 25, 50, 100, 250, 500, 750]

/-- Model of dist (main.go lines 144-149): absolute difference of two ints. -/
def dist (a b : Int) : Int := if a > b then a - b else b - a

/-- Model of getGameLength (main.go lines 137-142): a record with no populated
positions is a storage stub whose length is recorded in the slice capacity. -/
def getGameLength (g : Game) : Int :=
  if g.posLen = 0 then (g.posCap : Int) - 1 else (g.posLen : Int) - 1

/-- One update of the gamesOfLength entry for target l performed by
addToGamesOfLength (main.go lines 151-163): adopt g when no best exists,
otherwise adopt g exactly when its distance to l is strictly smaller. -/
def updateBest (l : Int) (cur : Option Game) (g : Game) : Option Game :=
  match cur with
  | none => some g
  | some lg =>
      if dist l (getGameLength g) < dist l (getGameLength lg) then some g else some lg

/-- Entry for target l after feeding a stream of records through
addToGamesOfLength in order, starting from the initial nil entry. -/
def bestForTarget (l : Int) (gs : List Game) : Option Game :=
  gs.foldl (updateBest l) none

/-- External rules engine consumed by generateRandomGame, over an abstract
state type. Moves are identified with their string form, which is injective
for the move type the program uses (pure coordinate notation). legalMoves
returns the legal move set in the engine's internal enumeration order;
makeMove returns the updated state and status, or none to model the error
return of g.MakeMove. -/
structure Engine (St : Type) where
  newGame : St
  legalMoves : St → List String
  makeMove : St → String → Option (St × GStatus)

/-- Step of the seeded pseudo-random source rand.New(rand.NewSource(int64(seed)))
from main.go line 168. Go's math/rand source is a deterministic pure function
of the seed alone; the exact stream does not matter for any claim, so a
64-bit linear congruential step models it. -/
def rngStep (s : Nat) : Nat := (6364136223846793005 * s + 1442695040888963407) % (2 ^ 64)

/-- Initial state of the seeded source for a given seed. -/
def seedState (seed : Nat) : Nat := rngStep seed

/-- Model of rnd.Intn(n) for n > 0: a draw in [0, n) and the advanced state. -/
def rngIntn (s n : Nat) : Nat × Nat := (rngStep s % n, rngStep s)

/-- Model of sorting the legal move slice lexicographically by each move's
string form (main.go lines 175-177). The Go code uses an unstable sort with a
strict-less comparator; since the move strings in a legal-move set are
distinct, the sorted list is the unique ordered permutation, which
insertion sort computes. -/
def sortMoves (l : List String) : List String := List.insertionSort (· ≤ ·) l

/-- Fully generated game: the chosen move strings in order and the final
status. The corresponding game.Game value has moves.length + 1 positions. -/
structure GenGame where
  moves : List String
  status : GStatus
deriving DecidableEq

/-- Outcome of generateRandomGame. errored models the (nil, err) return on a
MakeMove failure (main.go lines 180-182); panicked models the Go runtime
panic of rnd.Intn(0) on an empty legal-move slice (main.go line 179);
timeout models running out of loop fuel while still in progress (the Go
loop is unbounded). -/
inductive GenResult where
  | ok : GenGame → GenResult
  | errored : GenResult
  | panicked : GenResult
  | timeout : GenResult
deriving DecidableEq

/-- Loop body of generateRandomGame (main.go lines 169-183): query legal
moves, sort them by string form, draw a seeded random index, apply that move,
and repeat while the status is InProgress. -/
def genLoop {St : Type} (e : Engine St) : Nat → St → Nat → List String → GenResult
  | 0, _, _, _ => GenResult.timeout
  | fuel + 1, st, rng, acc =>
    match sortMoves (e.legalMoves st) with
    | [] => GenResult.panicked
    | m0 :: ms =>
      let k := rngIntn rng (m0 :: ms).length
      let m := (m0 :: ms).getD k.1 ""
      match e.makeMove st m with
      | none => GenResult.errored
      | some (st2, GStatus.InProgress) => genLoop e fuel st2 k.2 (acc ++ [m])
      | some (_, GStatus.Ended) => GenResult.ok ⟨acc ++ [m], GStatus.Ended⟩

/-- Model of generateRandomGame (main.go lines 165-185): a fresh game and a
random source derived from the seed alone drive the loop from the initial
position. -/
def generateRandomGame {St : Type} (e : Engine St) (fuel : Nat) (seed : Nat) : GenResult :=
  genLoop e fuel e.newGame (seedState seed) []

/-- Outcome of the result reporter's stub-resolution step. -/
inductive ReplayOutcome where
  | ok : GenGame → ReplayOutcome
  | nilDeref : ReplayOutcome
  | panicked : ReplayOutcome
  | timeout : ReplayOutcome
deriving DecidableEq

/-- Model of the stub-resolution step of the result reporter (main.go lines
113-119): ng, err := generateRandomGame(seed); when err is non-nil it is only
logged, ng is nil, and the following ng.Tags assignment dereferences the nil
pointer, modelled by nilDeref. -/
def resolveStub {St : Type} (e : Engine St) (fuel seed : Nat) : ReplayOutcome :=
  match generateRandomGame e fuel seed with
  | GenResult.ok g => ReplayOutcome.ok g
  | GenResult.errored => ReplayOutcome.nilDeref
  | GenResult.panicked => ReplayOutcome.panicked
  | GenResult.timeout => ReplayOutcome.timeout

/-- Engine whose legal-move set is enumerated in sorted order; every move ends
the game. -/
def engA : Engine Nat :=
  ⟨0, fun _ => ["d2d4", "e2e4"], fun st _ => some (st + 1, GStatus.Ended)⟩

/-- The same engine as engA except that the legal-move set is enumerated in
the opposite order. -/
def engB : Engine Nat :=
  ⟨0, fun _ => ["e2e4", "d2d4"], fun st _ => some (st + 1, GStatus.Ended)⟩

/-- Engine reporting an empty legal-move set from the initial position. -/
def engEmpty : Engine Nat :=
  ⟨0, fun _ => [], fun st _ => some (st, GStatus.Ended)⟩

/-- Engine whose makeMove always fails, modelling a rules-engine contract
violation during replay. -/
def engErr : Engine Nat :=
  ⟨0, fun _ => ["a1a2"], fun _ _ => none⟩

/-- Concrete full game record of 30 half-moves (31 positions), seed 0. -/
def witnessGameA : Game := ⟨31, 31, 0, []⟩

/-- Concrete full game record of 12 half-moves (13 positions), seed 1. -/
def witnessGameB : Game := ⟨13, 13, 1, []⟩

/-- Model of strings.Split(line, " ") over character lists: split at every
space, keeping empty fields; Split of the empty string yields one empty
field. -/
def splitOnSpace : List Char → List (List Char)
  | [] => [[]]
  | c :: rest =>
    if c = ' ' then [] :: splitOnSpace rest
    else
      match splitOnSpace rest with
      | [] => [[c]]
      | t :: ts => (c :: t) :: ts

/-- Model of strings.Join(elems, " ") over character lists. -/
def joinSpace : List (List Char) → List Char
  | [] => []
  | [t] => t
  | t :: ts => t ++ ' ' :: joinSpace ts

/-- Digit test of Go's strconv.Atoi: a character between ASCII 48 and 57. -/
def isGoDigit (c : Char) : Bool := 48 ≤ c.toNat && c.toNat ≤ 57

/-- Numeric value of a decimal digit character. -/
def digitVal (c : Char) : Nat := c.toNat - 48

/-- Decimal value of a digit string, most significant digit first. -/
def digitsToNat (cs : List Char) : Nat := cs.foldl (fun a c => 10 * a + digitVal c) 0

/-- Model of strconv.Atoi: an optional sign followed by at least one decimal
digit; anything else is a parse error. Overflow is not modelled; the values
this program stores are far below the int64 bound. -/
def atoiChars (cs : List Char) : Option Int :=
  match cs with
  | [] => none
  | c :: rest =>
    if c = '+' then
      if rest ≠ [] ∧ rest.all isGoDigit then some ((digitsToNat rest : Int)) else none
    else if c = '-' then
      if rest ≠ [] ∧ rest.all isGoDigit then some (-(digitsToNat rest : Int)) else none
    else if (c :: rest).all isGoDigit then some ((digitsToNat (c :: rest) : Int)) else none

/-- Character of a decimal digit value below ten. -/
def digChar (d : Nat) : Char :=
  match d with
  | 0 => '0'
  | 1 => '1'
  | 2 => '2'
  | 3 => '3'
  | 4 => '4'
  | 5 => '5'
  | 6 => '6'
  | 7 => '7'
  | 8 => '8'
  | _ => '9'

/-- Decimal rendering of a natural number, as fmt.Sprint produces it. -/
def natChars (n : Nat) : List Char :=
  if n = 0 then ['0'] else ((Nat.digits 10 n).map digChar).reverse

/-- Model of parsing and quick-validating one storage line (main.go lines
43-54): split the line on spaces, parse the leading field as an integer, and
require the declared count to equal the number of remaining fields; none
models the fatal corruption stop. On success the declared count equals the
token-list length, so it is returned as a Nat. -/
def parseStorageLine (line : List Char) : Option (Nat × List (List Char)) :=
  match atoiChars ((splitOnSpace line).headD []) with
  | none => none
  | some n =>
    let moves := (splitOnSpace line).tail
    if n = (moves.length : Int) then some (moves.length, moves) else none

/-- Stub game record built from storage line idx (main.go lines 55-61): no
populated positions, a Positions slice of capacity n + 1, and tags recording
the line index and the joined move text. -/
def mkStub (idx n : Nat) (moves : List (List Char)) : Game :=
  ⟨0, n + 1, idx, joinSpace moves⟩

/-- Content of the line storeGame appends for a record of n half-moves with
rendered move list moves (main.go line 198), as the scanner later sees it
with the trailing newline stripped: fmt.Sprint(n, " ", strings.Join(moves, " ")). -/
def storeLine (n : Nat) (moves : List (List Char)) : List Char :=
  natChars n ++ ' ' :: joinSpace moves

/-- Scan loop over the storage file lines (main.go lines 41-67): parse and
validate each line, build its stub, count it into startIndex, and stop early
once startIndex reaches the search budget; a corrupt line aborts with its
0-based index (log.Fatalf). Returns the final startIndex and the stubs in
order. -/
def scanPhase (noSearches : Nat) : List (List Char) → Nat → Except Nat (Nat × List Game)
  | [], idx => Except.ok (idx, [])
  | line :: rest, idx =>
    match parseStorageLine line with
    | none => Except.error idx
    | some (n, moves) =>
      if idx + 1 ≥ noSearches then Except.ok (idx + 1, [mkStub idx n moves])
      else
        match scanPhase noSearches rest (idx + 1) with
        | Except.error j => Except.error j
        | Except.ok (fin, gs) => Except.ok (fin, mkStub idx n moves :: gs)

/-- How the generation loop of main ended. -/
inductive LoopExit where
  | finished : LoopExit
  | fatalGen : Nat → LoopExit
  | syncStop : Nat → LoopExit
deriving DecidableEq

/-- Fuel-indexed body of the generation loop (main.go lines 74-86); the fuel
is always instantiated with noSearches - i, which bounds the remaining
iterations exactly. genFails i models generateRandomGame(i) returning an
error, on which log.Fatal exits the process; syncFails i models f.Sync()
failing after seed i was stored, on which the code logs the error and
returns from main. Returns the seeds passed to generateRandomGame in order,
and how the loop ended. -/
def genLoopFuel (genFails syncFails : Nat → Bool) (noSearches : Nat) :
    Nat → Nat → List Nat × LoopExit
  | 0, _ => ([], LoopExit.finished)
  | fuel + 1, i =>
    if i < noSearches then
      if genFails i then ([i], LoopExit.fatalGen i)
      else if syncFails i then ([i], LoopExit.syncStop i)
      else
        let r := genLoopFuel genFails syncFails noSearches fuel (i + 1)
        (i :: r.1, r.2)
    else ([], LoopExit.finished)

/-- The generation loop for i := startIndex; i < noSearches; i += 1
(main.go lines 74-86). -/
def generationLoop (genFails syncFails : Nat → Bool) (noSearches i : Nat) :
    List Nat × LoopExit :=
  genLoopFuel genFails syncFails noSearches (noSearches - i) i

/-- True when the run reaches the result-reporting phase (main.go lines
89-134): only a normally finished loop does; a fatal generation error exits
the process and a sync failure returns from main before the reporting code. -/
def reportRuns : LoopExit → Bool
  | LoopExit.finished => true
  | LoopExit.fatalGen _ => false
  | LoopExit.syncStop _ => false

/-- Outcome of main up to the end of the generation loop. -/
inductive RunOutcome where
  | fatalScan : Nat → RunOutcome
  | ran : Nat → List Nat → LoopExit → RunOutcome
deriving DecidableEq

/-- Scan phase followed by the generation loop (main.go lines 41-86): a
corrupt storage line is fatal and the process stops before generating any
game; otherwise generation proceeds from the scanned startIndex. -/
def runPipeline (noSearches : Nat) (lines : List (List Char))
    (genFails syncFails : Nat → Bool) : RunOutcome :=
  match scanPhase noSearches lines 0 with
  | Except.error j => RunOutcome.fatalScan j
  | Except.ok (s, _) =>
    let r := generationLoop genFails syncFails noSearches s
    RunOutcome.ran s r.1 r.2

/-- Model of the result-file write (main.go lines 90-97 and 131): the file is
opened with os.O_WRONLY|os.O_CREATE and no O_TRUNC and no O_APPEND, so the
new content is written from offset 0 over whatever the file held before, and
prior bytes beyond the written length remain. -/
def writeResultFile (prior newContent : List Char) : List Char :=
  newContent ++ prior.drop newContent.length

/-- Result-file content left over from a previous, larger run. -/
def oldResultContent : List Char := "RESULTRESULTRESULT".toList

/-- Result-file content produced by the current, smaller run. -/
def newResultContent : List Char := "NEW".toList

/-- Storage lines for the resumption witness: two intact lines. -/
def wLines : List (List Char) := ["1 a".toList, "2 b c".toList]

/-- Stub records that scanning wLines builds. -/
def wStubs : List Game :=
  [mkStub 0 1 ["a".toList], mkStub 1 2 ["b".toList, "c".toList]]

/-- Storage lines for the corruption witness: an intact line, then a line
whose leading field is not an integer. -/
def wBadLines : List (List Char) := ["1 a".toList, "x".toList]

/-- Sync-failure pattern that fails on seed 0. -/
def syncFailAt0 : Nat → Bool := fun i => i == 0

/-- Sync-failure pattern that fails on seed 1. -/
def syncFailAt1 : Nat → Bool := fun i => i == 1

theorem bestForTarget_append_one (l : Int) (gs : List Game) (g : Game) :
    bestForTarget l (gs ++ [g]) = updateBest l (bestForTarget l gs) g := by
  simp [bestForTarget, List.foldl_append]

/-- C1. Closest-length selection: for every target length in the configured
set and every nonempty record stream fed through addToGamesOfLength, the held
best record splits the stream as pre ++ best :: post, its distance to the
target is minimal over the whole stream, and it beats every earlier record
strictly, so exact ties keep the earliest-processed record. -/
theorem selector_closest_first_wins (l : Int) (hl : l ∈ targetLengths)
    (gs : List Game) (h : gs ≠ []) :
    ∃ pre best post, gs = pre ++ best :: post ∧
      bestForTarget l gs = some best ∧
      (∀ g ∈ gs, dist l (getGameLength best) ≤ dist l (getGameLength g)) ∧
      (∀ g ∈ pre, dist l (getGameLength best) < dist l (getGameLength g)) := by
  clear hl
  induction gs using List.reverseRecOn with
  | nil => exact absurd rfl h
  | append_singleton gs g ih =>
    rcases eq_or_ne gs [] with hnil | hne
    · subst hnil
      refine ⟨[], g, [], rfl, rfl, ?_, ?_⟩
      · intro x hx
        rcases List.mem_singleton.mp hx with rfl
        exact le_refl _
      · intro x hx
        exact absurd hx (List.not_mem_nil x)
    · obtain ⟨pre, b, post, hsplit, hfold, hmin, hstrict⟩ := ih hne
      rw [bestForTarget_append_one, hfold]
      by_cases hd : dist l (getGameLength g) < dist l (getGameLength b)
      · refine ⟨gs, g, [], rfl, ?_, ?_, ?_⟩
        · simp [updateBest, hd]
        · intro x hx
          rcases List.mem_append.mp hx with hx | hx
          · exact le_of_lt (lt_of_lt_of_le hd (hmin x hx))
          · rcases List.mem_singleton.mp hx with rfl
            exact le_refl _
        · intro x hx
          exact lt_of_lt_of_le hd (hmin x hx)
      · refine ⟨pre, b, post ++ [g], by rw [hsplit]; simp, ?_, ?_, ?_⟩
        · simp [updateBest, hd]
        · intro x hx
          rcases List.mem_append.mp hx with hx | hx
          · exact hmin x hx
          · rcases List.mem_singleton.mp hx with rfl
            exact le_of_not_lt hd
        · exact hstrict

/-- Witness for C1 at the spec's own scenario: target 25, a 30-half-move game
processed before a 12-half-move game. -/
theorem selector_closest_first_wins_witness :
    ∃ pre best post, [witnessGameA, witnessGameB] = pre ++ best :: post ∧
      bestForTarget 25 [witnessGameA, witnessGameB] = some best ∧
      (∀ g ∈ [witnessGameA, witnessGameB],
        dist 25 (getGameLength best) ≤ dist 25 (getGameLength g)) ∧
      (∀ g ∈ pre, dist 25 (getGameLength best) < dist 25 (getGameLength g)) :=
  selector_closest_first_wins 25 (by decide) [witnessGameA, witnessGameB] (by decide)

theorem sortMoves_congr {l₁ l₂ : List String} (h : List.Perm l₁ l₂) :
    sortMoves l₁ = sortMoves l₂ :=
  List.eq_of_perm_of_sorted
    ((List.perm_insertionSort _ l₁).trans (h.trans (List.perm_insertionSort _ l₂).symm))
    (List.sorted_insertionSort _ l₁) (List.sorted_insertionSort _ l₂)

theorem genLoop_congr {St : Type} {e₁ e₂ : Engine St}
    (hmk : ∀ st m, e₁.makeMove st m = e₂.makeMove st m)
    (hperm : ∀ st, List.Perm (e₁.legalMoves st) (e₂.legalMoves st)) :
    ∀ fuel st rng acc, genLoop e₁ fuel st rng acc = genLoop e₂ fuel st rng acc := by
  intro fuel
  induction fuel with
  | zero => intro st rng acc; rfl
  | succ f ih =>
    intro st rng acc
    have hs : sortMoves (e₁.legalMoves st) = sortMoves (e₂.legalMoves st) :=
      sortMoves_congr (hperm st)
    simp only [genLoop, hs, hmk]
    cases sortMoves (e₂.legalMoves st) with
    | nil => rfl
    | cons m0 ms =>
      dsimp only
      cases e₂.makeMove st ((m0 :: ms).getD (rngIntn rng (m0 :: ms).length).1 "") with
      | none => rfl
      | some r =>
        rcases r with ⟨st2, s⟩
        cases s with
        | InProgress => exact ih st2 (rngIntn rng (m0 :: ms).length).2 (acc ++ _)
        | Ended => rfl

/-- C2. Determinism of generation: generateRandomGame is a pure function of
the seed, and its result is independent of the order in which the rules
engine enumerates the legal-move set, because the moves are sorted
lexicographically on their string form before the seeded draw: two engines
with the same initial state and move application whose legal-move
enumerations are permutations of each other yield identical results (hence
identical move lists and half-move counts) for every seed. -/
theorem generate_deterministic_order_independent {St : Type} (e₁ e₂ : Engine St)
    (hnew : e₁.newGame = e₂.newGame)
    (hmk : ∀ st m, e₁.makeMove st m = e₂.makeMove st m)
    (hperm : ∀ st, List.Perm (e₁.legalMoves st) (e₂.legalMoves st))
    (fuel seed : Nat) :
    generateRandomGame e₁ fuel seed = generateRandomGame e₂ fuel seed := by
  unfold generateRandomGame
  rw [hnew]
  exact genLoop_congr hmk hperm fuel e₂.newGame (seedState seed) []

/-- Witness for C2: two concrete engines enumerating the same two-move set in
opposite orders generate the same game for seed 0. -/
theorem generate_deterministic_order_independent_witness :
    generateRandomGame engA 5 0 = generateRandomGame engB 5 0 := by
  refine generate_deterministic_order_independent engA engB rfl (fun _ _ => rfl) ?_ 5 0
  intro st
  show List.Perm ["d2d4", "e2e4"] ["e2e4", "d2d4"]
  decide

/-- Counterexample for C6: for an engine reporting zero legal moves from the
initial position, generateRandomGame panics (rnd.Intn(0) panics in Go) on the
first iteration; it does not return a zero-length record with terminal
status as the claim states. -/
theorem empty_moves_counterexample :
    generateRandomGame engEmpty 5 0 = GenResult.panicked ∧
    generateRandomGame engEmpty 5 0 ≠ GenResult.ok ⟨[], GStatus.Ended⟩ := by
  constructor
  · rfl
  · intro hc
    simp [generateRandomGame, genLoop, sortMoves, engEmpty] at hc

/-- C6 amended. Empty legal-move set at game start: if the rules engine
reports zero legal moves from the initial position, generateRandomGame does
not loop forever and does not return an error value; it panics on the first
loop iteration (indexing the empty move slice via rnd.Intn(0)), for every
positive fuel and every seed. -/
theorem empty_moves_panics {St : Type} (e : Engine St) (fuel seed : Nat)
    (hempty : e.legalMoves e.newGame = []) (hfuel : 1 ≤ fuel) :
    generateRandomGame e fuel seed = GenResult.panicked := by
  obtain ⟨f, rfl⟩ : ∃ f, fuel = f + 1 := by
    cases fuel with
    | zero => exact absurd hfuel (by decide)
    | succ f => exact ⟨f, rfl⟩
  unfold generateRandomGame genLoop
  rw [hempty]
  rfl

/-- Witness for C6 amended at the concrete empty-move engine, fuel 1, seed 0. -/
theorem empty_moves_panics_witness :
    engEmpty.legalMoves engEmpty.newGame = [] ∧ 1 ≤ 1 ∧
    generateRandomGame engEmpty 1 0 = GenResult.panicked :=
  ⟨rfl, by decide, empty_moves_panics engEmpty 1 0 rfl (by decide)⟩

/-- C10. Reporter replay error path: whenever regenerating a stub's game from
its seed returns the error outcome (nil game pointer plus non-nil error), the
reporter's stub-resolution step ends in a nil-pointer dereference on the
ng.Tags assignment, not in a cleanly propagated or skipped error. -/
theorem reporter_replay_nil_deref {St : Type} (e : Engine St) (fuel seed : Nat)
    (herr : generateRandomGame e fuel seed = GenResult.errored) :
    resolveStub e fuel seed = ReplayOutcome.nilDeref := by
  unfold resolveStub
  rw [herr]

/-- Witness for C10: a concrete engine whose move application fails makes
generateRandomGame return the error outcome, and the reporter step then
dereferences nil. -/
theorem reporter_replay_nil_deref_witness :
    generateRandomGame engErr 1 0 = GenResult.errored ∧
    resolveStub engErr 1 0 = ReplayOutcome.nilDeref :=
  ⟨rfl, reporter_replay_nil_deref engErr 1 0 rfl⟩

theorem splitOnSpace_append_token (t rest : List Char) (ht : ' ' ∉ t) :
    splitOnSpace (t ++ ' ' :: rest) = t :: splitOnSpace rest := by
  induction t with
  | nil => simp [splitOnSpace]
  | cons c cs ih =>
    have hc : ¬ c = ' ' := fun h => ht (h ▸ List.mem_cons_self c cs)
    have ihs := ih (fun hm => ht (List.mem_cons_of_mem c hm))
    simp only [List.cons_append, splitOnSpace, if_neg hc, List.append_eq, ihs]

theorem splitOnSpace_token (t : List Char) (ht : ' ' ∉ t) :
    splitOnSpace t = [t] := by
  induction t with
  | nil => rfl
  | cons c cs ih =>
    have hc : ¬ c = ' ' := fun h => ht (h ▸ List.mem_cons_self c cs)
    have ihs := ih (fun hm => ht (List.mem_cons_of_mem c hm))
    simp only [splitOnSpace, if_neg hc, ihs]

theorem splitOnSpace_joinSpace (ts : List (List Char)) (hne : ts ≠ [])
    (htok : ∀ t ∈ ts, ' ' ∉ t) : splitOnSpace (joinSpace ts) = ts := by
  induction ts with
  | nil => exact absurd rfl hne
  | cons t ts ih =>
    cases ts with
    | nil =>
      exact splitOnSpace_token t (htok t (List.mem_cons_self t []))
    | cons t2 ts2 =>
      have h1 : joinSpace (t :: t2 :: ts2) = t ++ ' ' :: joinSpace (t2 :: ts2) := rfl
      rw [h1, splitOnSpace_append_token t _ (htok t (List.mem_cons_self t _))]
      rw [ih (by simp) (fun x hx => htok x (List.mem_cons_of_mem t hx))]

theorem digChar_spec (d : Nat) (hd : d < 10) :
    isGoDigit (digChar d) = true ∧ digitVal (digChar d) = d ∧ ¬ digChar d = ' ' := by
  interval_cases d <;> exact ⟨by decide, by decide, by decide⟩

theorem natChars_facts (n : Nat) :
    (∀ c ∈ natChars n, isGoDigit c = true) ∧ natChars n ≠ [] ∧ ' ' ∉ natChars n := by
  by_cases h : n = 0
  · subst h
    refine ⟨?_, by decide, by decide⟩
    intro c hc
    rcases List.mem_singleton.mp hc with rfl
    decide
  · have hdig : ∀ c ∈ natChars n, isGoDigit c = true ∧ ¬ c = ' ' := by
      intro c hc
      rw [natChars, if_neg h] at hc
      rw [List.mem_reverse, List.mem_map] at hc
      obtain ⟨d, hd, rfl⟩ := hc
      have hd10 : d < 10 := Nat.digits_lt_base (by norm_num) hd
      exact ⟨(digChar_spec d hd10).1, (digChar_spec d hd10).2.2⟩
    refine ⟨fun c hc => (hdig c hc).1, ?_, fun hsp => (hdig ' ' hsp).2 rfl⟩
    rw [natChars, if_neg h]
    simp [Nat.digits_ne_nil_iff_ne_zero.mpr h]

theorem foldr_digits_ofDigits (L : List Nat) (hL : ∀ d ∈ L, d < 10) :
    L.foldr (fun d a => 10 * a + digitVal (digChar d)) 0 = Nat.ofDigits 10 L := by
  induction L with
  | nil => simp [Nat.ofDigits_nil]
  | cons d L ih =>
    have hd10 : d < 10 := hL d (List.mem_cons_self d L)
    rw [List.foldr_cons, ih (fun x hx => hL x (List.mem_cons_of_mem d hx))]
    rw [Nat.ofDigits_cons, (digChar_spec d hd10).2.1]
    ring

theorem digitsToNat_natChars (n : Nat) : digitsToNat (natChars n) = n := by
  by_cases h : n = 0
  · subst h; decide
  · rw [natChars, if_neg h, digitsToNat, List.foldl_reverse, List.foldr_map]
    have := foldr_digits_ofDigits (Nat.digits 10 n)
      (fun d hd => Nat.digits_lt_base (by norm_num) hd)
    simpa [Nat.ofDigits_digits] using this

theorem atoiChars_natChars (n : Nat) : atoiChars (natChars n) = some (n : Int) := by
  obtain ⟨hdig, hne, hns⟩ := natChars_facts n
  cases hcs : natChars n with
  | nil => exact absurd hcs hne
  | cons c rest =>
    have hcdig : isGoDigit c = true := hdig c (hcs ▸ List.mem_cons_self c rest)
    have hplus : ¬ c = '+' := by
      intro hc
      rw [hc] at hcdig
      exact absurd hcdig (by decide)
    have hminus : ¬ c = '-' := by
      intro hc
      rw [hc] at hcdig
      exact absurd hcdig (by decide)
    have hall : (c :: rest).all isGoDigit = true := by
      rw [List.all_eq_true]
      intro x hx
      exact hdig x (hcs ▸ hx)
    rw [atoiChars, if_neg hplus, if_neg hminus, if_pos hall]
    rw [← hcs, digitsToNat_natChars]

/-- Counterexample for C4: a generated game record with zero half-moves is
stored as the line "0 " (the separating space is always written), which
splits into the declared length 0 followed by one empty token, so the scan
reports a corruption error instead of yielding a matching stub. -/
theorem store_roundtrip_zero_counterexample :
    parseStorageLine (storeLine 0 []) = none ∧
    parseStorageLine (storeLine 0 []) ≠ some (0, []) := by
  constructor
  · decide
  · decide

/-- C4 amended. Store round-trip: for every generated record with at least
one half-move (its rendered SAN tokens contain no spaces), appending it with
storeGame and scanning the stored line back yields the declared length and
the exact move list without a corruption error, and the stub built from them
reports the appended record's half-move count and joined move text. A
zero-half-move record is excluded: its stored line scans as corrupt (see the
counterexample). -/
theorem store_roundtrip_amended (n idx : Nat) (moves : List (List Char))
    (hn : 1 ≤ n) (hlen : moves.length = n) (hmv : ∀ m ∈ moves, ' ' ∉ m) :
    parseStorageLine (storeLine n moves) = some (n, moves) ∧
    getGameLength (mkStub idx n moves) = (n : Int) ∧
    (mkStub idx n moves).tagSanMoves = joinSpace moves := by
  refine ⟨?_, ?_, rfl⟩
  · obtain ⟨hdig, hne, hns⟩ := natChars_facts n
    have hmne : moves ≠ [] := by
      intro hm
      rw [hm] at hlen
      simp at hlen
      omega
    have hsplit : splitOnSpace (storeLine n moves) = natChars n :: moves := by
      rw [storeLine, splitOnSpace_append_token (natChars n) _ hns,
        splitOnSpace_joinSpace moves hmne hmv]
    rw [parseStorageLine, hsplit]
    simp [List.headD_cons, atoiChars_natChars, List.tail_cons, hlen]
  · have h1 : (mkStub idx n moves).posLen = 0 := rfl
    rw [getGameLength, if_pos h1]
    show ((n + 1 : Nat) : Int) - 1 = (n : Int)
    push_cast
    ring

/-- Witness for C4 amended: a one-half-move record with move token e4
round-trips through store and scan. -/
theorem store_roundtrip_amended_witness :
    parseStorageLine (storeLine 1 ["e4".toList]) = some (1, ["e4".toList]) ∧
    getGameLength (mkStub 0 1 ["e4".toList]) = (1 : Int) ∧
    (mkStub 0 1 ["e4".toList]).tagSanMoves = joinSpace ["e4".toList] :=
  store_roundtrip_amended 1 0 ["e4".toList] (by decide) (by decide)
    (by intro m hm; rcases List.mem_singleton.mp hm with rfl; decide)

theorem scanPhase_error_at (noSearches : Nat) :
    ∀ (ls : List (List Char)) (j idx : Nat) (hj : j < ls.length),
      idx + j < noSearches →
      parseStorageLine (ls.get ⟨j, hj⟩) = none →
      (∀ i (hi : i < ls.length), i < j → parseStorageLine (ls.get ⟨i, hi⟩) ≠ none) →
      scanPhase noSearches ls idx = Except.error (idx + j) := by
  intro ls
  induction ls with
  | nil =>
    intro j idx hj
    exact absurd hj (by simp)
  | cons line rest ih =>
    intro j idx hj hjn hbad hgood
    cases j with
    | zero =>
      have hline : parseStorageLine line = none := hbad
      simp only [scanPhase, hline]
      rfl
    | succ j =>
      have hline : parseStorageLine line ≠ none := by
        have h0 : (0 : Nat) < (line :: rest).length := by simp
        exact hgood 0 h0 (Nat.succ_pos j)
      cases hp : parseStorageLine line with
      | none => exact absurd hp hline
      | some p =>
        rcases p with ⟨n, moves⟩
        have hjr : j < rest.length := Nat.lt_of_succ_lt_succ hj
        have hnb : ¬ idx + 1 ≥ noSearches := by omega
        have hbadr : parseStorageLine (rest.get ⟨j, hjr⟩) = none := hbad
        have hgoodr : ∀ i (hi : i < rest.length), i < j →
            parseStorageLine (rest.get ⟨i, hi⟩) ≠ none := by
          intro i hi hij
          exact hgood (i + 1) (Nat.succ_lt_succ hi) (Nat.succ_lt_succ hij)
        have hrec := ih j (idx + 1) hjr (by omega) hbadr hgoodr
        simp only [scanPhase, hp, if_neg hnb, hrec]
        have : idx + 1 + j = idx + (j + 1) := by omega
        rw [this]

/-- C5. Corruption is fatal and detected before generation: if the first
corrupt storage line (unparseable leading integer or declared length not
matching the token count) sits at scanned index j, the run stops with a
fatal error naming line j, and the generation loop never runs: no seed is
passed to generateRandomGame. -/
theorem corruption_fatal_before_generation (noSearches : Nat)
    (lines : List (List Char)) (j : Nat) (hj : j < lines.length)
    (hjn : j < noSearches)
    (hbad : parseStorageLine (lines.get ⟨j, hj⟩) = none)
    (hgood : ∀ i (hi : i < lines.length), i < j →
      parseStorageLine (lines.get ⟨i, hi⟩) ≠ none)
    (genFails syncFails : Nat → Bool) :
    runPipeline noSearches lines genFails syncFails = RunOutcome.fatalScan j := by
  have herr := scanPhase_error_at noSearches lines j 0 hj (by omega) hbad hgood
  rw [runPipeline, herr]
  simp

/-- Witness for C5: a file whose second line has an unparseable leading
integer is rejected at index 1 before any generation, for budget 5. -/
theorem corruption_fatal_before_generation_witness :
    (1 < wBadLines.length) ∧ (1 < 5) ∧
    runPipeline 5 wBadLines (fun _ => false) (fun _ => false)
      = RunOutcome.fatalScan 1 := by
  refine ⟨by decide, by decide, ?_⟩
  exact corruption_fatal_before_generation 5 wBadLines 1 (by decide) (by decide)
    (by decide) (by decide) (fun _ => false) (fun _ => false)

theorem scanPhase_ok_length (noSearches : Nat) :
    ∀ (ls : List (List Char)) (idx fin : Nat) (gs : List Game),
      scanPhase noSearches ls idx = Except.ok (fin, gs) → fin = idx + gs.length := by
  intro ls
  induction ls with
  | nil =>
    intro idx fin gs h
    simp only [scanPhase, Except.ok.injEq, Prod.mk.injEq] at h
    rw [← h.1, ← h.2]
    simp
  | cons line rest ih =>
    intro idx fin gs h
    simp only [scanPhase] at h
    cases hp : parseStorageLine line with
    | none =>
      rw [hp] at h
      exact absurd h (by simp)
    | some p =>
      rcases p with ⟨n, moves⟩
      rw [hp] at h
      dsimp only at h
      by_cases hc : idx + 1 ≥ noSearches
      · rw [if_pos hc] at h
        simp only [Except.ok.injEq, Prod.mk.injEq] at h
        rw [← h.1, ← h.2]
        simp
      · rw [if_neg hc] at h
        cases hrec : scanPhase noSearches rest (idx + 1) with
        | error j =>
          rw [hrec] at h
          exact absurd h (by simp)
        | ok p2 =>
          rcases p2 with ⟨fin2, gs2⟩
          rw [hrec] at h
          simp only [Except.ok.injEq, Prod.mk.injEq] at h
          have := ih (idx + 1) fin2 gs2 hrec
          rw [← h.1, ← h.2]
          simp
          omega

theorem genLoopFuel_all_ok (n : Nat) :
    ∀ (fuel i : Nat), fuel = n - i →
      genLoopFuel (fun _ => false) (fun _ => false) n fuel i
        = (List.range' i fuel, LoopExit.finished) := by
  intro fuel
  induction fuel with
  | zero => intro i h; rfl
  | succ f ih =>
    intro i h
    have hin : i < n := by omega
    simp only [genLoopFuel, if_pos hin]
    rw [ih (i + 1) (by omega)]
    simp only [Bool.false_eq_true, if_false]
    rfl

theorem mem_range'_iff : ∀ (n s m : Nat), m ∈ List.range' s n ↔ s ≤ m ∧ m < s + n := by
  intro n
  induction n with
  | zero =>
    intro s m
    simp [List.range']
  | succ k ih =>
    intro s m
    rw [show List.range' s (k + 1) = s :: List.range' (s + 1) k from rfl,
      List.mem_cons, ih (s + 1)]
    omega

/-- C3. Resumption: when the scan phase of an intact storage file ends with
startIndex s and stub list stubs, then s equals the number of lines
successfully scanned (one stub per scanned line), and the generation loop
with no failures passes to generateRandomGame exactly the consecutive seed
indices s, s+1, ..., noSearches-1: a seed is explored iff it is at least s
(never regenerating a recorded one) and below the search budget (never
skipping and never exceeding it). -/
theorem resumption_consecutive_seeds (noSearches : Nat) (lines : List (List Char))
    (s : Nat) (stubs : List Game)
    (hscan : scanPhase noSearches lines 0 = Except.ok (s, stubs)) :
    s = stubs.length ∧
    generationLoop (fun _ => false) (fun _ => false) noSearches s
      = (List.range' s (noSearches - s), LoopExit.finished) ∧
    (∀ i, i ∈ (generationLoop (fun _ => false) (fun _ => false) noSearches s).1 ↔
      (s ≤ i ∧ i < noSearches)) := by
  have h1 : s = stubs.length := by
    have := scanPhase_ok_length noSearches lines 0 s stubs hscan
    omega
  have h2 : generationLoop (fun _ => false) (fun _ => false) noSearches s
      = (List.range' s (noSearches - s), LoopExit.finished) :=
    genLoopFuel_all_ok noSearches (noSearches - s) s rfl
  refine ⟨h1, h2, ?_⟩
  intro i
  rw [h2]
  show i ∈ List.range' s (noSearches - s) ↔ s ≤ i ∧ i < noSearches
  rw [mem_range'_iff]
  omega

/-- Witness for C3: scanning two intact lines under budget 4 yields
startIndex 2, and generation explores exactly seeds 2 and 3. -/
theorem resumption_consecutive_seeds_witness :
    2 = wStubs.length ∧
    generationLoop (fun _ => false) (fun _ => false) 4 2
      = (List.range' 2 (4 - 2), LoopExit.finished) ∧
    (∀ i, i ∈ (generationLoop (fun _ => false) (fun _ => false) 4 2).1 ↔
      (2 ≤ i ∧ i < 4)) :=
  resumption_consecutive_seeds 4 wLines 2 wStubs (by rfl)

theorem generationLoop_step (gf sf : Nat → Bool) (n i : Nat) (h : i < n) :
    generationLoop gf sf n i =
      if gf i then ([i], LoopExit.fatalGen i)
      else if sf i then ([i], LoopExit.syncStop i)
      else ((i :: (generationLoop gf sf n (i + 1)).1),
        (generationLoop gf sf n (i + 1)).2) := by
  have hn : n - i = (n - (i + 1)) + 1 := by omega
  rw [generationLoop, hn]
  simp only [genLoopFuel, if_pos h]
  rfl

/-- Counterexample for C7: with budget 2 starting at seed 0 and the fsync
after storing seed 0 failing, the run ends at once: seed 1 is never
generated and the result-reporting phase never executes, contrary to the
claim that the run continues. -/
theorem sync_failure_stops_run_counterexample :
    generationLoop (fun _ => false) syncFailAt0 2 0 = ([0], LoopExit.syncStop 0) ∧
    (1 ∉ (generationLoop (fun _ => false) syncFailAt0 2 0).1) ∧
    reportRuns (generationLoop (fun _ => false) syncFailAt0 2 0).2 = false := by
  decide

theorem generationLoop_until_syncStop (gf sf : Nat → Bool) (n i : Nat)
    (hin : i < n) (hgi : gf i = false) (hsf : sf i = true) :
    ∀ d s, i = s + d → (∀ j, j < i → s ≤ j → gf j = false ∧ sf j = false) →
      generationLoop gf sf n s = (List.range' s (d + 1), LoopExit.syncStop i) := by
  intro d
  induction d with
  | zero =>
    intro s hd hok
    have hs : s = i := by omega
    subst hs
    rw [generationLoop_step gf sf n s hin, hgi, hsf]
    simp
  | succ d ih =>
    intro s hd hok
    have hsi : s < i := by omega
    obtain ⟨hg0, hs0⟩ := hok s hsi (le_refl s)
    rw [generationLoop_step gf sf n s (by omega), hg0, hs0]
    simp only [Bool.false_eq_true, if_false]
    rw [ih (s + 1) (by omega) (fun j hj hsj => hok j hj (by omega))]
    rfl

/-- C7 amended. Sync failure ends the run: when the fsync after appending the
game for seed i fails (and no earlier iteration failed), the failure is
logged and main returns immediately: the loop has explored only seeds s..i,
the remaining seed indices are not generated, and the result-reporting phase
does not execute. -/
theorem sync_failure_terminates_run (gf sf : Nat → Bool) (n s i : Nat)
    (hsi : s ≤ i) (hin : i < n) (hgi : gf i = false) (hsf : sf i = true)
    (hok : ∀ j, j < i → s ≤ j → gf j = false ∧ sf j = false) :
    generationLoop gf sf n s = (List.range' s (i + 1 - s), LoopExit.syncStop i) ∧
    reportRuns (generationLoop gf sf n s).2 = false := by
  have hd : i = s + (i - s) := by omega
  have h := generationLoop_until_syncStop gf sf n i hin hgi hsf (i - s) s hd hok
  have hi1 : i + 1 - s = (i - s) + 1 := by omega
  rw [hi1]
  exact ⟨h, by rw [h]; rfl⟩

/-- Witness for C7 amended: budget 3 from seed 0 with the sync after seed 1
failing explores only seeds 0 and 1 and never reports. -/
theorem sync_failure_terminates_run_witness :
    generationLoop (fun _ => false) syncFailAt1 3 0
      = (List.range' 0 (1 + 1 - 0), LoopExit.syncStop 1) ∧
    reportRuns (generationLoop (fun _ => false) syncFailAt1 3 0).2 = false :=
  sync_failure_terminates_run (fun _ => false) syncFailAt1 3 0 1 (by decide)
    (by decide) (by decide) (by decide) (by decide)

/-- C8. Stub length invariant: a stub built from a storage line with declared
length n (an empty Positions slice of capacity n + 1) reports length n, and
a freshly generated record with k positions (k at least 1, since a new game
starts with the initial position) reports length k - 1, so both record forms
report their half-move count consistently to the selector. -/
theorem game_length_invariant (idx n k c tagSeed : Nat) (moves : List (List Char))
    (tag : List Char) (hk : 1 ≤ k) :
    getGameLength (mkStub idx n moves) = (n : Int) ∧
    getGameLength ⟨k, c, tagSeed, tag⟩ = (k : Int) - 1 := by
  constructor
  · have h1 : (mkStub idx n moves).posLen = 0 := rfl
    rw [getGameLength, if_pos h1]
    show ((n + 1 : Nat) : Int) - 1 = (n : Int)
    push_cast
    ring
  · have hk0 : ¬ k = 0 := by omega
    rw [getGameLength, if_neg hk0]

/-- Witness for C8: a stub of declared length 5 reports 5 and a fresh record
with 3 positions reports 2. -/
theorem game_length_invariant_witness :
    getGameLength (mkStub 7 5 []) = (5 : Int) ∧
    getGameLength ⟨3, 3, 0, []⟩ = (3 : Int) - 1 :=
  game_length_invariant 7 5 3 3 0 [] [] (by decide)

/-- C9 evaluation (code bug): the result file is opened without O_TRUNC, so
it is not created fresh: writing this run's content over a longer previous
file leaves the previous tail in place, and the final content is not exactly
the newly written blocks (it only is when no previous content existed). -/
theorem result_file_not_truncated :
    writeResultFile oldResultContent newResultContent ≠ newResultContent ∧
    writeResultFile oldResultContent newResultContent
      = newResultContent ++ oldResultContent.drop newResultContent.length ∧
    oldResultContent.drop newResultContent.length ≠ [] ∧
    writeResultFile [] newResultContent = newResultContent := by
  decide

end ChessGen
